import Mathlib

/-!
Verification development for the Web3 research-agent repository.

The Python source under `src/` is shallowly embedded below: strings are
modelled as `List Char`, dictionaries returned by `research` are modelled as a
`RunResult` structure whose optional `error` and `available_tools` keys become
`Option` fields, and the external language-model executor is modelled by an
explicit outcome value passed to `research`.
-/

/-- Boolean test that the second list starts with the first one.
Embeds the prefix test used by Python substring containment. -/
def listStartsWith : List Char → List Char → Bool
  | [], _ => true
  | _ :: _, [] => false
  | a :: as, b :: bs => a == b && listStartsWith as bs

/-- Boolean substring containment: embeds the Python expression `p in s`. -/
def containsSub (p : List Char) : List Char → Bool
  | [] => listStartsWith p []
  | c :: rest => listStartsWith p (c :: rest) || containsSub p rest

/-- Remainder of the string after the first occurrence of `sep`, if any.
Helper for embedding Python `s.split(sep)`: `split` scans left to right for
non-overlapping occurrences of the separator. -/
def afterFirst (sep : List Char) : List Char → Option (List Char)
  | [] => none
  | c :: rest =>
    if listStartsWith sep (c :: rest) then some (List.drop sep.length (c :: rest))
    else afterFirst sep rest

/-- Fueled iteration of `afterFirst`; with enough fuel this returns the last
piece of Python `s.split(sep)`. -/
def splitLastAux (sep : List Char) : Nat → List Char → List Char
  | 0, s => s
  | Nat.succ n, s =>
    match afterFirst sep s with
    | none => s
    | some r => splitLastAux sep n r

/-- Embeds the Python expression `s.split(sep)[-1]` for a non-empty separator:
the piece of the string after the last (left-to-right, non-overlapping)
occurrence of `sep`, or the whole string when `sep` does not occur. -/
def splitLast (sep s : List Char) : List Char :=
  splitLastAux sep s.length s

/-- Characters removed by Python `str.strip()` with no argument. -/
def wsChar (c : Char) : Bool :=
  c == ' ' || c == '\t' || c == '\n' || c == '\r' || c == '\x0b' || c == '\x0c'

/-- Embeds Python `s.strip()`: drop whitespace from both ends. -/
def pyStrip (s : List Char) : List Char :=
  (((s.dropWhile wsChar).reverse).dropWhile wsChar).reverse

/-- Embeds Python `s.lower()` for the ASCII tool identifiers in this code base. -/
def pyLower (s : List Char) : List Char :=
  s.map Char.toLower

/-- Embeds Python `sep.join(xs)`. -/
def joinSep (sep : List Char) : List (List Char) → List Char
  | [] => []
  | [x] => x
  | x :: y :: rest => x ++ sep ++ joinSep sep (y :: rest)

/-- A registered tool as seen by `Web3ResearchAgent`: LangChain `Tool` objects
carry a `name` and a `description` (the callable is irrelevant to the agent
class itself and is modelled separately where needed). -/
structure ATool where
  name : List Char
  description : List Char
deriving DecidableEq

/-- Embeds `Web3ResearchAgent.add_tool` acting on the `self.tools` list:
`self.tools.append(tool)` followed by `_rebuild_agent()` (which only touches
the executor, not the tool list). -/
def add_tool (tools : List ATool) (t : ATool) : List ATool :=
  tools ++ [t]

/-- Embeds `Web3ResearchAgent.get_available_tools`:
`[tool.name for tool in self.tools]`. -/
def get_available_tools (tools : List ATool) : List (List Char) :=
  tools.map ATool.name

/-- An agent action inside an intermediate step: LangChain `AgentAction` with
its `tool` and `tool_input` attributes (the only ones the source reads). -/
structure AgentAction where
  tool : List Char
  toolInput : List Char
deriving DecidableEq

/-- One entry of `result["intermediate_steps"]`: a pair of an action and an
observation string.  The source guards `len(step) >= 2` and
`hasattr(action, "tool")` are always satisfied by this typed embedding. -/
structure AgentStep where
  action : AgentAction
  observation : List Char
deriving DecidableEq

/-- Embeds the `elif` chain in `Web3ResearchAgent._extract_sources` that maps
one tool name to a provider source name. -/
def normalizeSource (toolName : List Char) : List Char :=
  let low := pyLower toolName
  if containsSub "defillama".data low then "DeFiLlama".data
  else if containsSub "etherscan".data low then "Etherscan".data
  else if containsSub "coinmarketcap".data low then "CoinMarketCap".data
  else if containsSub "artemis".data low then "Artemis".data
  else if containsSub "dune".data low then "Dune Analytics".data
  else if containsSub "nansen".data low then "Nansen".data
  else toolName

/-- Embeds `sources.add(x)` on a Python `set`, modelled as a duplicate-free
list in insertion order (the claims about `sources` are order-insensitive). -/
def insertSource (acc : List (List Char)) (s : List Char) : List (List Char) :=
  if s ∈ acc then acc else acc ++ [s]

/-- Embeds `Web3ResearchAgent._extract_sources`: walk the intermediate steps,
normalize each invoked tool name, and collect the results into a set. -/
def extract_sources (steps : List AgentStep) : List (List Char) :=
  steps.foldl (fun acc st => insertSource acc (normalizeSource st.action.tool)) []

/-- Embeds the answer clean-up in `Web3ResearchAgent.research`:
`if "Final Answer:" in answer: answer = answer.split("Final Answer:")[-1].strip()`. -/
def finalAnswerLabel : List Char :=
  "Final Answer:".data

/-- Clean-up applied to the executor output before it is surfaced. -/
def cleanAnswer (answer : List Char) : List Char :=
  if containsSub finalAnswerLabel answer then pyStrip (splitLast finalAnswerLabel answer)
  else answer

/-- Outcome of `self.agent_executor.invoke(...)` as observed by `research`:
either a result dictionary carrying `output` and `intermediate_steps`, or a
raised exception carrying its message string. -/
inductive ExecOutcome where
  | ok (output : List Char) (steps : List AgentStep)
  | exn (msg : List Char)

/-- The dictionary returned by `Web3ResearchAgent.research`.  The optional
`error` and `available_tools` keys are `Option` fields: `none` means the key
is absent from the returned dictionary. -/
structure RunResult where
  answer : List Char
  sources : List (List Char)
  steps : List AgentStep
  success : Bool
  error : Option (List Char)
  availableTools : Option (List (List Char))
deriving DecidableEq

/-- Embeds `Web3ResearchAgent.research`.  `self.agent_executor` is `None`
exactly when no tool has ever been registered (`__init__` leaves it `None`,
and `add_tool` always rebuilds it from a non-empty `self.tools`), so the
`if not self.agent_executor` guard is embedded as a test on the tool list.
The query string is only forwarded to the external executor, whose behavior
is the explicit `outcome` argument. -/
def research (tools : List ATool) (query : List Char) (outcome : ExecOutcome) : RunResult :=
  if tools.isEmpty then
    { answer := "No data sources connected. Please add API tools first.".data
      sources := []
      steps := []
      success := false
      error := none
      availableTools := none }
  else
    match outcome with
    | ExecOutcome.ok output steps =>
      { answer := cleanAnswer output
        sources := extract_sources steps
        steps := steps
        success := true
        error := none
        availableTools := some (tools.map ATool.name) }
    | ExecOutcome.exn msg =>
      if containsSub "not found".data (pyLower msg) then
        { answer := "Tool execution failed. Available tools: ".data
            ++ joinSep ", ".data (tools.map ATool.name)
          sources := []
          steps := []
          success := false
          error := some msg
          availableTools := none }
      else
        { answer := "Research failed: ".data ++ msg
          sources := []
          steps := []
          success := false
          error := some msg
          availableTools := none }

/-- Configuration constants passed to `AgentExecutor` in
`Web3ResearchAgent._rebuild_agent`. -/
structure AgentExecutorConfig where
  maxIterations : Nat
  maxExecutionTime : Nat
  earlyStoppingMethod : List Char
  handleParsingErrors : Bool
  returnIntermediateSteps : Bool

/-- Embeds the `AgentExecutor(...)` keyword arguments in `_rebuild_agent`. -/
def rebuildAgentConfig : AgentExecutorConfig :=
  { maxIterations := 4
    maxExecutionTime := 60
    earlyStoppingMethod := "force".data
    handleParsingErrors := true
    returnIntermediateSteps := true }

/-- Modelled from the spec: the Decision Parser result of one model round
trip (section 4.2).  The think-act-observe loop itself lives in the
third-party `AgentExecutor`, which is not part of this repository sources. -/
inductive Decision where
  | toolReq (toolId arg : List Char)
  | finalAnswer (text : List Char)
  | malformed (raw : List Char)

/-- Modelled from the spec: a tool as the Orchestration Loop sees it, an id
plus an invocation closure from argument text to observation text. -/
structure MTool where
  id : List Char
  invoke : List Char → List Char

/-- Modelled from the spec: one trace entry, an `(invocation, observation)`
pair (section 3, Orchestration Run). -/
structure TraceEntry where
  toolId : List Char
  arg : List Char
  observation : List Char
deriving DecidableEq

/-- Modelled from the spec: the two iteration-exhaustion policies of section
4.1 — surface the last partial answer ("force" semantics) or fail outright. -/
inductive ExhaustPolicy where
  | bestEffort
  | failRun

/-- Modelled from the spec: terminal status of an orchestration run. -/
inductive RunStatus where
  | completed (answer : List Char)
  | exhausted (bestEffortAnswer : List Char)
  | failed
deriving DecidableEq

/-- Modelled from the spec: the synthetic corrective observation produced when
the model names an unregistered tool id — it states the tool is unknown and
lists the valid ids (section 4.1, step 4a). -/
def unknownToolObservation (reg : List MTool) (tid : List Char) : List Char :=
  tid ++ " is not a valid tool, try one of: ".data ++ joinSep ", ".data (reg.map MTool.id)

/-- Modelled from the spec: the corrective observation fed back on malformed
model output (section 4.1, step 4c). -/
def malformedObservation : List Char :=
  "Invalid format, use the Action/Action Input format or give a Final Answer".data

/-- Modelled from the spec: the best-effort answer surfaced on exhaustion is
drawn from the last accumulated observation. -/
def bestEffortFrom (trace : List TraceEntry) : List Char :=
  match trace.getLast? with
  | some e => e.observation
  | none => []

/-- Modelled from the spec: the Orchestration Loop of section 4.1, which is
implemented by the third-party `AgentExecutor` and therefore absent from the
repository sources.  The model is a function from the accumulated trace to
the parsed decision; the fuel argument is the remaining iteration budget.
On exhaustion the `bestEffort` policy surfaces the last partial answer when
any observation has accumulated and fails otherwise; the `failRun` policy
fails outright.  An unknown tool id appends the synthetic corrective
observation and continues; malformed output likewise continues. -/
def runLoop (reg : List MTool) (model : List TraceEntry → Decision)
    (policy : ExhaustPolicy) : Nat → List TraceEntry → RunStatus × List TraceEntry
  | 0, trace =>
    match policy with
    | ExhaustPolicy.bestEffort =>
      if trace.isEmpty then (RunStatus.failed, trace)
      else (RunStatus.exhausted (bestEffortFrom trace), trace)
    | ExhaustPolicy.failRun => (RunStatus.failed, trace)
  | Nat.succ n, trace =>
    match model trace with
    | Decision.finalAnswer t => (RunStatus.completed t, trace)
    | Decision.toolReq tid arg =>
      match reg.find? (fun t => t.id == tid) with
      | some t => runLoop reg model policy n (trace ++ [⟨tid, arg, t.invoke arg⟩])
      | none => runLoop reg model policy n (trace ++ [⟨tid, arg, unknownToolObservation reg tid⟩])
    | Decision.malformed raw => runLoop reg model policy n (trace ++ [⟨[], raw, malformedObservation⟩])

/-- A model stub that never signals completion: every round trip requests
another tool invocation.  Used to witness the exhaustion policies. -/
def neverFinalModel : List TraceEntry → Decision :=
  fun _ => Decision.toolReq "get_gas_prices".data []

/-- A concrete registered tool for witnessing loop runs. -/
def demoGasTool : MTool :=
  ⟨"get_gas_prices".data, fun _ => "12 Gwei".data⟩

/-- A model stub that first names an unregistered tool id and, once the
corrective observation is in the trace, gives a final answer. -/
def recoveringModel : List TraceEntry → Decision := fun tr =>
  if tr.isEmpty then Decision.toolReq "bad_tool".data []
  else Decision.finalAnswer "Current gas price is 12 Gwei.".data

/-- Embeds Python `s.isdigit()` for the ASCII strings relevant here: true on a
non-empty string of digit characters. -/
def pyIsDigit (s : List Char) : Bool :=
  !s.isEmpty && s.all Char.isDigit

/-- Embeds Python `query.replace(".", "")`. -/
def removeDots (s : List Char) : List Char :=
  s.filter (fun c => !(c == '.'))

/-- Embeds the argument guard of the `find_yield_opportunities` tool lambda in
`DeFiLlamaMCP.get_tools`: `query.replace(".", "").isdigit()`. -/
def yieldOpportunitiesGuard (query : List Char) : Bool :=
  pyIsDigit (removeDots query)

/-- Model of the Python builtin `float()` acceptance on the strings made of
ASCII digits and dots (the strings on which the guard above can be true):
`float(s)` succeeds on such a string exactly when it contains at least one
digit and at most one dot, and raises `ValueError` otherwise. -/
def pyFloatAcceptsDigitsDots (s : List Char) : Bool :=
  decide (s.count '.' ≤ 1) && s.any Char.isDigit

/-- Embeds the failure mode of the `find_yield_opportunities` lambda: the
expression `float(query) if query.replace(".", "").isdigit() else 5.0` raises
a `ValueError` across the tool boundary exactly when the guard accepts the
argument but `float` does not. -/
def findYieldOpportunitiesRaises (query : List Char) : Bool :=
  yieldOpportunitiesGuard query && !pyFloatAcceptsDigitsDots query

/-- Starting-with is existence of a completing suffix. -/
theorem listStartsWith_iff (p s : List Char) :
    listStartsWith p s = true ↔ ∃ t, s = p ++ t := by
  induction p generalizing s with
  | nil => simp [listStartsWith]
  | cons a as ih =>
    cases s with
    | nil =>
      simp [listStartsWith]
    | cons b bs =>
      simp only [listStartsWith, Bool.and_eq_true, beq_iff_eq, ih, List.cons_append,
        List.cons.injEq]
      constructor
      · rintro ⟨rfl, t, rfl⟩
        exact ⟨t, rfl, rfl⟩
      · rintro ⟨t, rfl, rfl⟩
        exact ⟨rfl, t, rfl⟩

/-- Substring containment is existence of a decomposition around the pattern. -/
theorem containsSub_iff (p s : List Char) :
    containsSub p s = true ↔ ∃ u v, s = u ++ p ++ v := by
  induction s with
  | nil =>
    simp only [containsSub, listStartsWith_iff]
    constructor
    · rintro ⟨t, ht⟩
      exact ⟨[], t, by simpa using ht⟩
    · rintro ⟨u, v, huv⟩
      rcases List.append_eq_nil.1 huv.symm with ⟨hup, hv⟩
      rcases List.append_eq_nil.1 hup with ⟨hu, hp⟩
      exact ⟨[], by simp [hp]⟩
  | cons c rest ih =>
    simp only [containsSub, Bool.or_eq_true, listStartsWith_iff, ih]
    constructor
    · rintro (⟨t, ht⟩ | ⟨u, v, huv⟩)
      · exact ⟨[], t, by simpa using ht⟩
      · exact ⟨c :: u, v, by simp [huv]⟩
    · rintro ⟨u, v, huv⟩
      cases u with
      | nil => exact Or.inl ⟨v, by simpa using huv⟩
      | cons x xs =>
        right
        rw [List.cons_append, List.cons_append, List.cons.injEq] at huv
        exact ⟨xs, v, huv.2⟩

/-- Containment transfers from a middle segment to the surrounding string. -/
theorem containsSub_of_within (p m x y : List Char) (h : containsSub p m = true) :
    containsSub p (x ++ m ++ y) = true := by
  rcases (containsSub_iff p m).1 h with ⟨u, v, rfl⟩
  exact (containsSub_iff p _).2 ⟨x ++ u, v ++ y, by simp⟩

/-- Stripping only removes characters from the two ends. -/
theorem pyStrip_within (s : List Char) : ∃ x y, s = x ++ pyStrip s ++ y := by
  have h1 : s = s.takeWhile wsChar ++ s.dropWhile wsChar :=
    (List.takeWhile_append_dropWhile wsChar s).symm
  have h2 : (s.dropWhile wsChar).reverse =
      (s.dropWhile wsChar).reverse.takeWhile wsChar ++
        (s.dropWhile wsChar).reverse.dropWhile wsChar :=
    (List.takeWhile_append_dropWhile wsChar (s.dropWhile wsChar).reverse).symm
  have h3 := congrArg List.reverse h2
  rw [List.reverse_reverse, List.reverse_append] at h3
  refine ⟨s.takeWhile wsChar, ((s.dropWhile wsChar).reverse.takeWhile wsChar).reverse, ?_⟩
  unfold pyStrip
  conv_lhs => rw [h1, h3]
  simp [List.append_assoc]

/-- A pattern found in the stripped string was already in the string. -/
theorem containsSub_pyStrip (p s : List Char) (h : containsSub p (pyStrip s) = true) :
    containsSub p s = true := by
  obtain ⟨x, y, hxy⟩ := pyStrip_within s
  rw [hxy]
  exact containsSub_of_within _ _ _ _ h

/-- If no occurrence can be dropped through, the string has no occurrence. -/
theorem afterFirst_none (sep s : List Char) (hsep : sep ≠ []) (h : afterFirst sep s = none) :
    containsSub sep s = false := by
  induction s with
  | nil =>
    cases sep with
    | nil => exact absurd rfl hsep
    | cons a as => rfl
  | cons c rest ih =>
    unfold afterFirst at h
    by_cases hp : listStartsWith sep (c :: rest) = true
    · rw [if_pos hp] at h
      exact absurd h (by simp)
    · rw [if_neg hp] at h
      have hrest := ih h
      unfold containsSub
      rw [hrest, Bool.or_false]
      exact Bool.not_eq_true _ ▸ hp

/-- Dropping through an occurrence of a non-empty separator shortens the string. -/
theorem afterFirst_length_lt (sep s r : List Char) (hsep : sep ≠ [])
    (h : afterFirst sep s = some r) : r.length < s.length := by
  induction s with
  | nil => simp [afterFirst] at h
  | cons c rest ih =>
    unfold afterFirst at h
    by_cases hp : listStartsWith sep (c :: rest) = true
    · rw [if_pos hp] at h
      have hr : r = List.drop sep.length (c :: rest) := by
        injection h with h
        exact h.symm
      have hlen : 1 ≤ sep.length := by
        cases sep with
        | nil => exact absurd rfl hsep
        | cons _ _ => simp
      subst hr
      rw [List.length_drop]
      simp only [List.length_cons]
      omega
    · rw [if_neg hp] at h
      have := ih h
      simp only [List.length_cons]
      omega

/-- With fuel at least the string length, the last split piece holds no
further occurrence of the separator. -/
theorem splitLastAux_not_contains (sep : List Char) (hsep : sep ≠ []) :
    ∀ n s, s.length ≤ n → containsSub sep (splitLastAux sep n s) = false := by
  intro n
  induction n with
  | zero =>
    intro s hs
    have hnil : s = [] := List.length_eq_zero.1 (Nat.le_zero.1 hs)
    subst hnil
    cases sep with
    | nil => exact absurd rfl hsep
    | cons a as => rfl
  | succ m ih =>
    intro s hs
    unfold splitLastAux
    cases hf : afterFirst sep s with
    | none => exact afterFirst_none sep s hsep hf
    | some r =>
      have hlt := afterFirst_length_lt sep s r hsep hf
      exact ih r (by omega)

/-- Membership after a set insertion. -/
theorem mem_insertSource (acc : List (List Char)) (a x : List Char) :
    x ∈ insertSource acc a ↔ x ∈ acc ∨ x = a := by
  unfold insertSource
  by_cases h : a ∈ acc
  · rw [if_pos h]
    constructor
    · exact Or.inl
    · rintro (hx | rfl)
      · exact hx
      · exact h
  · rw [if_neg h]
    simp

/-- Set insertion preserves freedom from duplicates. -/
theorem nodup_insertSource (acc : List (List Char)) (a : List Char) (h : acc.Nodup) :
    (insertSource acc a).Nodup := by
  unfold insertSource
  by_cases ha : a ∈ acc
  · rwa [if_pos ha]
  · rw [if_neg ha]
    rw [List.nodup_append]
    refine ⟨h, List.nodup_singleton a, ?_⟩
    intro x hx hxa
    rw [List.mem_singleton] at hxa
    exact ha (hxa ▸ hx)

/-- Membership in the folded set accumulation. -/
theorem mem_foldl_insertSource (l : List (List Char)) (acc : List (List Char)) (x : List Char) :
    x ∈ l.foldl insertSource acc ↔ x ∈ acc ∨ x ∈ l := by
  induction l generalizing acc with
  | nil => simp
  | cons a as ih =>
    rw [List.foldl_cons, ih, mem_insertSource]
    simp only [List.mem_cons]
    tauto

/-- The folded set accumulation stays duplicate-free. -/
theorem nodup_foldl_insertSource (l : List (List Char)) (acc : List (List Char))
    (h : acc.Nodup) : (l.foldl insertSource acc).Nodup := by
  induction l generalizing acc with
  | nil => simpa
  | cons a as ih => exact ih _ (nodup_insertSource _ _ h)

/-- Source extraction is the set accumulation of the normalized tool names. -/
theorem extract_sources_eq (steps : List AgentStep) :
    extract_sources steps =
      (steps.map (fun st => normalizeSource st.action.tool)).foldl insertSource [] :=
  (List.foldl_map _ _ _ _).symm

/-- C1: with an empty registry (so the executor was never built), `research`
on any non-empty query returns the fixed fallback result with `success=false`,
the fallback answer, empty sources and steps, and does so independently of
the executor outcome argument — no model call can influence the result. -/
theorem research_empty_registry (c : Char) (q : List Char) (o : ExecOutcome) :
    research [] (c :: q) o =
      { answer := "No data sources connected. Please add API tools first.".data
        sources := []
        steps := []
        success := false
        error := none
        availableTools := none } := rfl

/-- C2 counterexample: the empty-registry failure result has `success=false`
yet carries no `error` key, so the error field is not present for every
failure result. -/
theorem research_error_key_cex :
    (research [] "what is the gas price".data (ExecOutcome.exn "boom".data)).success = false ∧
      (research [] "what is the gas price".data (ExecOutcome.exn "boom".data)).error = none :=
  ⟨rfl, rfl⟩

/-- C2 amended: the `error` key appears only on failure results — every
result either omits `error` or has `success=false` — and every failure
result produced by an executor exception carries the exception message as
its `error` value; the empty-registry failure result is the one failure
without an `error` key. -/
theorem research_error_only_on_failure (tools : List ATool) (q : List Char) (o : ExecOutcome)
    (t : ATool) (ts : List ATool) (msg : List Char) :
    ((research tools q o).error = none ∨ (research tools q o).success = false) ∧
      (research (t :: ts) q (ExecOutcome.exn msg)).error = some msg ∧
      (research (t :: ts) q (ExecOutcome.exn msg)).success = false := by
  refine ⟨?_, ?_, ?_⟩
  · unfold research
    rcases tools with _ | ⟨t0, ts0⟩
    · left
      rfl
    · rcases o with ⟨out, steps⟩ | ⟨m⟩
      · left
        simp
      · right
        simp only [List.isEmpty_cons, Bool.false_eq_true, if_false]
        by_cases hc : containsSub "not found".data (pyLower m) = true
        · rw [if_pos hc]
        · rw [if_neg hc]
  · unfold research
    simp only [List.isEmpty_cons, Bool.false_eq_true, if_false]
    by_cases hc : containsSub "not found".data (pyLower msg) = true
    · rw [if_pos hc]
    · rw [if_neg hc]
  · unfold research
    simp only [List.isEmpty_cons, Bool.false_eq_true, if_false]
    by_cases hc : containsSub "not found".data (pyLower msg) = true
    · rw [if_pos hc]
    · rw [if_neg hc]

/-- C3: on the success path the surfaced answer never contains the literal
label used to mark completion, and when the executor output does contain the
label the surfaced answer is exactly the piece after its last occurrence,
trimmed of surrounding whitespace. -/
theorem research_answer_strips_label (t : ATool) (ts : List ATool) (q output : List Char)
    (steps : List AgentStep) :
    containsSub finalAnswerLabel
        ((research (t :: ts) q (ExecOutcome.ok output steps)).answer) = false ∧
      (containsSub finalAnswerLabel output = true →
        (research (t :: ts) q (ExecOutcome.ok output steps)).answer =
          pyStrip (splitLast finalAnswerLabel output)) := by
  have hans : (research (t :: ts) q (ExecOutcome.ok output steps)).answer =
      cleanAnswer output := by
    unfold research
    simp only [List.isEmpty_cons, Bool.false_eq_true, if_false]
  rw [hans]
  unfold cleanAnswer
  by_cases h : containsSub finalAnswerLabel output = true
  · rw [if_pos h]
    refine ⟨?_, fun _ => rfl⟩
    have hsep : finalAnswerLabel ≠ [] := by decide
    have h1 : containsSub finalAnswerLabel (splitLast finalAnswerLabel output) = false :=
      splitLastAux_not_contains finalAnswerLabel hsep output.length output (le_refl _)
    cases hcl : containsSub finalAnswerLabel (pyStrip (splitLast finalAnswerLabel output)) with
    | false => rfl
    | true =>
      have := containsSub_pyStrip _ _ hcl
      rw [h1] at this
      exact absurd this (by simp)
  · rw [if_neg h]
    rw [Bool.not_eq_true] at h
    exact ⟨h, fun hh => absurd hh (by simp [h])⟩

/-- C3 witness: a concrete output containing the label is stripped as stated. -/
theorem research_answer_strips_label_w :
    containsSub finalAnswerLabel "Thought: done. Final Answer:  42 Gwei ".data = true ∧
      (research [⟨"get_gas_prices".data, "d".data⟩] "q".data
          (ExecOutcome.ok "Thought: done. Final Answer:  42 Gwei ".data [])).answer =
        pyStrip (splitLast finalAnswerLabel "Thought: done. Final Answer:  42 Gwei ".data) :=
  ⟨by decide,
    (research_answer_strips_label ⟨"get_gas_prices".data, "d".data⟩ [] "q".data
        "Thought: done. Final Answer:  42 Gwei ".data []).2 (by decide)⟩

/-- C10: the returned dictionary has the `available_tools` key, holding the
registered tool names in registration order, exactly on success results. -/
theorem research_available_tools_key (tools : List ATool) (q : List Char) (o : ExecOutcome) :
    (research tools q o).availableTools =
      (if (research tools q o).success = true then some (tools.map ATool.name) else none) := by
  unfold research
  rcases tools with _ | ⟨t, ts⟩
  · simp
  · rcases o with ⟨out, steps⟩ | ⟨m⟩
    · simp
    · simp only [List.isEmpty_cons, Bool.false_eq_true, if_false]
      by_cases hc : containsSub "not found".data (pyLower m) = true
      · rw [if_pos hc]
        simp
      · rw [if_neg hc]
        simp

/-- C4 counterexample: the tool id `defillama_etherscan` contains
`etherscan` (case-insensitively) yet normalizes to `DeFiLlama`, not
`Etherscan`, because the `elif` chain tries `defillama` first — so the
per-keyword rules of the claim do not all hold unconditionally. -/
theorem normalize_priority_cex :
    containsSub "etherscan".data (pyLower "defillama_etherscan".data) = true ∧
      normalizeSource "defillama_etherscan".data = "DeFiLlama".data ∧
      normalizeSource "defillama_etherscan".data ≠ "Etherscan".data :=
  ⟨by decide, by decide, by decide⟩

/-- C4 amended: the extracted sources are the deduplicated set of normalized
tool names of the steps — duplicate-free, with membership exactly the
normalized names of invoked tools — where normalization applies the keyword
rules in the fixed priority order defillama, etherscan, coinmarketcap,
artemis, dune, nansen (an id containing several keywords maps per the first
matching rule) and unmatched ids pass through unchanged. -/
theorem extract_sources_amended (steps : List AgentStep) (name : List Char) :
    (extract_sources steps).Nodup ∧
      (∀ x, x ∈ extract_sources steps ↔
        ∃ st, st ∈ steps ∧ normalizeSource st.action.tool = x) ∧
      (containsSub "defillama".data (pyLower name) = true →
        normalizeSource name = "DeFiLlama".data) ∧
      (containsSub "defillama".data (pyLower name) = false →
        containsSub "etherscan".data (pyLower name) = true →
        normalizeSource name = "Etherscan".data) ∧
      (containsSub "defillama".data (pyLower name) = false →
        containsSub "etherscan".data (pyLower name) = false →
        containsSub "coinmarketcap".data (pyLower name) = true →
        normalizeSource name = "CoinMarketCap".data) ∧
      (containsSub "defillama".data (pyLower name) = false →
        containsSub "etherscan".data (pyLower name) = false →
        containsSub "coinmarketcap".data (pyLower name) = false →
        containsSub "artemis".data (pyLower name) = true →
        normalizeSource name = "Artemis".data) ∧
      (containsSub "defillama".data (pyLower name) = false →
        containsSub "etherscan".data (pyLower name) = false →
        containsSub "coinmarketcap".data (pyLower name) = false →
        containsSub "artemis".data (pyLower name) = false →
        containsSub "dune".data (pyLower name) = true →
        normalizeSource name = "Dune Analytics".data) ∧
      (containsSub "defillama".data (pyLower name) = false →
        containsSub "etherscan".data (pyLower name) = false →
        containsSub "coinmarketcap".data (pyLower name) = false →
        containsSub "artemis".data (pyLower name) = false →
        containsSub "dune".data (pyLower name) = false →
        containsSub "nansen".data (pyLower name) = true →
        normalizeSource name = "Nansen".data) ∧
      (containsSub "defillama".data (pyLower name) = false →
        containsSub "etherscan".data (pyLower name) = false →
        containsSub "coinmarketcap".data (pyLower name) = false →
        containsSub "artemis".data (pyLower name) = false →
        containsSub "dune".data (pyLower name) = false →
        containsSub "nansen".data (pyLower name) = false →
        normalizeSource name = name) := by
  refine ⟨?_, ?_, ?_, ?_, ?_, ?_, ?_, ?_, ?_⟩
  · rw [extract_sources_eq]
    exact nodup_foldl_insertSource _ _ List.nodup_nil
  · intro x
    rw [extract_sources_eq, mem_foldl_insertSource]
    simp [List.mem_map, eq_comm]
  all_goals intros
  all_goals simp_all [normalizeSource]

/-- C4 witness: the amended rules applied at concrete tool identifiers. -/
theorem extract_sources_amended_w :
    containsSub "defillama".data (pyLower "get_gas_prices_etherscan".data) = false ∧
      containsSub "etherscan".data (pyLower "get_gas_prices_etherscan".data) = true ∧
      normalizeSource "get_gas_prices_etherscan".data = "Etherscan".data :=
  ⟨by decide, by decide,
    (extract_sources_amended [] "get_gas_prices_etherscan".data).2.2.2.1
      (by decide) (by decide)⟩

/-- C5: extraction of the run result is a pure function of the terminated
trace — the success result returns the intermediate steps unchanged, its
sources are the extraction of exactly those steps, and source extraction
depends only on the invoked tool names, so two extractions from the same
trace agree. -/
theorem research_extraction_pure (t : ATool) (ts : List ATool) (q output : List Char)
    (steps s1 s2 : List AgentStep)
    (h : s1.map (fun st => st.action.tool) = s2.map (fun st => st.action.tool)) :
    (research (t :: ts) q (ExecOutcome.ok output steps)).steps = steps ∧
      (research (t :: ts) q (ExecOutcome.ok output steps)).sources = extract_sources steps ∧
      extract_sources s1 = extract_sources s2 := by
  refine ⟨?_, ?_, ?_⟩
  · unfold research
    simp
  · unfold research
    simp
  · rw [extract_sources_eq, extract_sources_eq]
    have hmap : s1.map (fun st => normalizeSource st.action.tool) =
        s2.map (fun st => normalizeSource st.action.tool) := by
      have h1 : s1.map (fun st => normalizeSource st.action.tool) =
          (s1.map (fun st => st.action.tool)).map normalizeSource := by
        rw [List.map_map]
        rfl
      have h2 : s2.map (fun st => normalizeSource st.action.tool) =
          (s2.map (fun st => st.action.tool)).map normalizeSource := by
        rw [List.map_map]
        rfl
      rw [h1, h2, h]
    rw [hmap]

/-- C5 witness: the purity statement applied to one concrete terminated run. -/
theorem research_extraction_pure_w :
    (research [⟨"get_gas_prices".data, "d".data⟩] "q".data
        (ExecOutcome.ok "ok".data
          [⟨⟨"get_gas_prices_etherscan".data, [] ⟩, "12 Gwei".data⟩])).steps =
      [⟨⟨"get_gas_prices_etherscan".data, [] ⟩, "12 Gwei".data⟩] ∧
      (research [⟨"get_gas_prices".data, "d".data⟩] "q".data
          (ExecOutcome.ok "ok".data
            [⟨⟨"get_gas_prices_etherscan".data, [] ⟩, "12 Gwei".data⟩])).sources =
        extract_sources [⟨⟨"get_gas_prices_etherscan".data, [] ⟩, "12 Gwei".data⟩] ∧
      extract_sources [⟨⟨"get_gas_prices_etherscan".data, [] ⟩, "12 Gwei".data⟩] =
        extract_sources [⟨⟨"get_gas_prices_etherscan".data, [] ⟩, "other obs".data⟩] :=
  research_extraction_pure ⟨"get_gas_prices".data, "d".data⟩ [] "q".data "ok".data
    [⟨⟨"get_gas_prices_etherscan".data, [] ⟩, "12 Gwei".data⟩]
    [⟨⟨"get_gas_prices_etherscan".data, [] ⟩, "12 Gwei".data⟩]
    [⟨⟨"get_gas_prices_etherscan".data, [] ⟩, "other obs".data⟩] (by rfl)

/-- C9 counterexample: registering a tool whose id already appears neither
replaces the existing entry nor signals an error — `add_tool` appends
unconditionally, so the registry then holds two tools with the same id. -/
theorem add_tool_duplicate_cex :
    get_available_tools
        (add_tool [⟨"get_gas_prices".data, "first".data⟩]
          ⟨"get_gas_prices".data, "second".data⟩) =
      ["get_gas_prices".data, "get_gas_prices".data] ∧
      (get_available_tools
          (add_tool [⟨"get_gas_prices".data, "first".data⟩]
            ⟨"get_gas_prices".data, "second".data⟩)).count "get_gas_prices".data = 2 :=
  ⟨rfl, by decide⟩

/-- C9 amended: tool ids are not kept unique — `add_tool` appends the new
tool unconditionally, so registering a tool whose id already appears leaves
both entries in the registry and increases the number of tools carrying that
id by one. -/
theorem add_tool_appends (tools : List ATool) (t : ATool) :
    add_tool tools t = tools ++ [t] ∧
      (get_available_tools (add_tool tools t)).count t.name =
        (get_available_tools tools).count t.name + 1 := by
  refine ⟨rfl, ?_⟩
  unfold get_available_tools add_tool
  rw [List.map_append, List.count_append]
  simp [List.count_cons]

/-- C6: the modelled orchestration loop supports both iteration-exhaustion
policies — under the best-effort ("force") policy exhaustion surfaces the
last accumulated observation when any observation exists and fails when none
does, while the fail policy fails outright; a model that never signals a
final answer can only end in one of those exhaustion outcomes; and the
executor configuration in the source fixes an iteration budget of 4 (inside
the 3 to 5 range), a 60 second execution deadline, and the "force" early
stopping method. -/
theorem loop_exhaustion_policies (reg : List MTool) (model : List TraceEntry → Decision)
    (trace tr0 : List TraceEntry) (e : TraceEntry) (n : Nat) (policy : ExhaustPolicy)
    (hmodel : ∀ tr, ∃ tid arg, model tr = Decision.toolReq tid arg) :
    runLoop reg model ExhaustPolicy.bestEffort 0 (e :: tr0) =
      (RunStatus.exhausted (bestEffortFrom (e :: tr0)), e :: tr0) ∧
      runLoop reg model ExhaustPolicy.failRun 0 trace = (RunStatus.failed, trace) ∧
      runLoop reg model ExhaustPolicy.bestEffort 0 [] = (RunStatus.failed, []) ∧
      (∀ ans, (runLoop reg model policy n trace).1 ≠ RunStatus.completed ans) ∧
      rebuildAgentConfig.maxIterations = 4 ∧
      3 ≤ rebuildAgentConfig.maxIterations ∧
      rebuildAgentConfig.maxIterations ≤ 5 ∧
      rebuildAgentConfig.maxExecutionTime = 60 ∧
      rebuildAgentConfig.earlyStoppingMethod = "force".data := by
  refine ⟨rfl, rfl, rfl, ?_, rfl, by decide, by decide, rfl, rfl⟩
  intro ans
  induction n generalizing trace with
  | zero =>
    cases policy with
    | bestEffort =>
      by_cases ht : trace.isEmpty = true
      · simp [runLoop, ht]
      · simp [runLoop, ht]
    | failRun => simp [runLoop]
  | succ m ih =>
    obtain ⟨tid, arg, hm⟩ := hmodel trace
    simp only [runLoop, hm]
    cases hf : reg.find? (fun t => t.id == tid) with
    | some t => exact ih _
    | none => exact ih _

/-- C6 witness: the policy behavior evaluated on concrete runs. -/
theorem loop_exhaustion_policies_w :
    runLoop [] neverFinalModel ExhaustPolicy.bestEffort 0
        [⟨"t".data, [], "12 Gwei".data⟩] =
      (RunStatus.exhausted "12 Gwei".data, [⟨"t".data, [], "12 Gwei".data⟩]) ∧
      runLoop [] neverFinalModel ExhaustPolicy.failRun 0 [] = (RunStatus.failed, []) ∧
      (runLoop [] neverFinalModel ExhaustPolicy.bestEffort 3 []).1 ≠
        RunStatus.completed "done".data :=
  ⟨(loop_exhaustion_policies [] neverFinalModel [] [] ⟨"t".data, [], "12 Gwei".data⟩ 3
      ExhaustPolicy.bestEffort (fun _ => ⟨"get_gas_prices".data, [], rfl⟩)).1,
    (loop_exhaustion_policies [] neverFinalModel [] [] ⟨"t".data, [], "12 Gwei".data⟩ 3
      ExhaustPolicy.bestEffort (fun _ => ⟨"get_gas_prices".data, [], rfl⟩)).2.1,
    (loop_exhaustion_policies [] neverFinalModel [] [] ⟨"t".data, [], "12 Gwei".data⟩ 3
      ExhaustPolicy.bestEffort (fun _ => ⟨"get_gas_prices".data, [], rfl⟩)).2.2.2.1
      "done".data⟩

/-- C7 / code bug: the argument guard of the `find_yield_opportunities` tool
lambda accepts the string `1.2.3` (removing dots leaves the digit string
`123`), but Python `float("1.2.3")` raises `ValueError` since the string
holds two dots, so the tool raises across the boundary to the orchestration
loop on that argument, violating the never-throws tool contract; on a
well-formed number or a non-numeric string the lambda does not raise. -/
theorem find_yield_guard_bug :
    yieldOpportunitiesGuard "1.2.3".data = true ∧
      pyFloatAcceptsDigitsDots "1.2.3".data = false ∧
      findYieldOpportunitiesRaises "1.2.3".data = true ∧
      findYieldOpportunitiesRaises "7.5".data = false ∧
      findYieldOpportunitiesRaises "protocols".data = false :=
  ⟨by decide, by decide, by decide, by decide, by decide⟩

/-- C8: when the model names an unregistered tool id, the modelled loop does
not abort — it appends the synthetic corrective observation (which lists the
valid tool ids) to the trace and continues, and if the model then gives a
final answer the run terminates as completed. -/
theorem loop_unknown_tool_recovery (reg : List MTool) (model : List TraceEntry → Decision)
    (tid arg ans : List Char) (n : Nat)
    (hfind : reg.find? (fun t => t.id == tid) = none)
    (h1 : model [] = Decision.toolReq tid arg)
    (h2 : model [⟨tid, arg, unknownToolObservation reg tid⟩] = Decision.finalAnswer ans) :
    runLoop reg model ExhaustPolicy.bestEffort (n + 2) [] =
      (RunStatus.completed ans, [⟨tid, arg, unknownToolObservation reg tid⟩]) ∧
      containsSub (joinSep ", ".data (reg.map MTool.id))
        (unknownToolObservation reg tid) = true := by
  constructor
  · calc runLoop reg model ExhaustPolicy.bestEffort (n + 2) []
        = runLoop reg model ExhaustPolicy.bestEffort (n + 1)
            ([] ++ [⟨tid, arg, unknownToolObservation reg tid⟩]) := by
          simp only [runLoop, h1, hfind]
      _ = (RunStatus.completed ans, [⟨tid, arg, unknownToolObservation reg tid⟩]) := by
          rw [List.nil_append]
          simp only [runLoop, h2]
  · apply (containsSub_iff _ _).2
    refine ⟨tid ++ " is not a valid tool, try one of: ".data, [], ?_⟩
    unfold unknownToolObservation
    simp [List.append_assoc]

/-- C8 witness: a concrete run that first requests an unknown tool and still
completes on the next round trip. -/
theorem loop_unknown_tool_recovery_w :
    runLoop [demoGasTool] recoveringModel ExhaustPolicy.bestEffort 4 [] =
      (RunStatus.completed "Current gas price is 12 Gwei.".data,
        [⟨"bad_tool".data, [], unknownToolObservation [demoGasTool] "bad_tool".data⟩]) :=
  (loop_unknown_tool_recovery [demoGasTool] recoveringModel "bad_tool".data []
      "Current gas price is 12 Gwei.".data 2 rfl rfl rfl).1

